import Mathlib

/-!
# Verification of the LXC container lifecycle driver

Shallow embedding of the driver's pure logic and of its effectful control
flow (as explicit traces of external actions), together with theorems
checking the natural-language specification against the code.

The repository contains two variants of the driver:
* the current variant (`src/unnamed/part_000`), modelled below with the
  suffix `A` where the variants differ, and
* the legacy variant (`src/client/driver/lxc.go`), modelled with the
  suffix `Go` where the variants differ.
-/

namespace LxcDriver

/-- Go's `strings.Split(s, sep)` for a one-character separator, on
`List Char`.  Always returns at least one component. -/
def splitOnChar (sep : Char) : List Char → List (List Char)
  | [] => [[]]
  | c :: rest =>
    let r := splitOnChar sep rest
    if c = sep then
      [] :: r
    else
      match r with
      | h :: t => (c :: h) :: t
      | [] => [[c]]

/-- The `tr` helper of `executeContainer`:
`strings.Replace(s, "-", "--", -1)`, i.e. escape every `-` as `--`. -/
def escDashes : List Char → List Char
  | [] => []
  | c :: rest => if c = '-' then '-' :: '-' :: escDashes rest else c :: escDashes rest

/-- Membership in the character class `[a-zA-Z0-9_+.-]` of the
`devMapperRE` regular expression in `extractVgName`. -/
def isVgChar (c : Char) : Bool :=
  c.isAlpha || c.isDigit || c = '_' || c = '+' || c = '.' || c = '-'

/-- The literal part `/dev/mapper/` of `devMapperRE`. -/
def devMapperLit : List Char :=
  ['/', 'd', 'e', 'v', '/', 'm', 'a', 'p', 'p', 'e', 'r', '/']

/-- After the literal `/dev/mapper/`, the pattern
`([a-zA-Z0-9_+.-]*[^-])-{1}[^-]` matches the rest `r` with the starred
class consuming exactly `k` characters: the first `k` characters are in
the class, the next character (the last one of the capture) is not `-`,
then a `-`, then a non-`-` character. -/
def matchAt (r : List Char) (k : Nat) : Bool :=
  (r.take k).all isVgChar &&
    match r.get? k, r.get? (k + 1), r.get? (k + 2) with
    | some y, some d, some z => y ≠ '-' && d = '-' && z ≠ '-'
    | _, _, _ => false

/-- Greedy backtracking of the starred class: try the longest prefix
first and shrink until the rest of the pattern matches. -/
def greedyKAux (r : List Char) : Nat → Option Nat
  | 0 => if matchAt r 0 then some 0 else none
  | k + 1 => if matchAt r (k + 1) then some (k + 1) else greedyKAux r k

/-- The number of characters consumed by the starred class in a greedy
match of `devMapperRE`'s capture group against `r` (the text after the
literal `/dev/mapper/`), if any.  (On `r = []` this is `none`, since no
position matches.) -/
def greedyK (r : List Char) : Option Nat :=
  greedyKAux r (r.length - 1)

/-- Leftmost-first search of `devMapperRE` over `s`, returning the
capture group (`matches[0][1]` in the source) of the first position at
which the whole pattern matches. -/
def findMapperCapture : List Char → Option (List Char)
  | [] => none
  | s@(_ :: tail) =>
    if devMapperLit.isPrefixOf s then
      match greedyK (s.drop 12) with
      | some k => some ((s.drop 12).take (k + 1))
      | none => findMapperCapture tail
    else
      findMapperCapture tail

/-- Index of the last `/` in `s` (Go's `strings.LastIndex(s, "/")`),
or `none` when there is no `/`. -/
def lastSlashIdx : List Char → Option Nat
  | [] => none
  | c :: rest =>
    match lastSlashIdx rest with
    | some j => some (j + 1)
    | none => if c = '/' then some 0 else none

/-- Result of running a Go function that may panic. -/
inductive GoRes (α : Type) : Type
  | panic : GoRes α
  | ret : α → GoRes α
  deriving Repr, DecidableEq

/-- Result of `extractVgName`: a runtime panic, an error return, or the
extracted volume-group name. -/
inductive ExtractRes : Type
  | panic : ExtractRes
  | err : ExtractRes
  | ok : List Char → ExtractRes
  deriving Repr, DecidableEq

/-- The `extractVgName` function of the current variant, accepting the
three reference forms `vgname/lvname`, `/dev/mapper/vg--esc-lv--esc`
and `/dev/vgname/lvname`.  The Go slice `baseLvName[5:lastIndex]` in
the `/dev/` fallback panics when the last `/` is before index 5. -/
def extractVgName (baseLvName : List Char) : ExtractRes :=
  let vgName : GoRes (List Char) :=
    if baseLvName.head? ≠ some '/' then
      -- vgname/lvname
      match splitOnChar '/' baseLvName with
      | [vg, _] => .ret vg
      | _ => .ret []   -- "unexpected number of components" error, via empty name
    else
      match findMapperCapture baseLvName with
      | some cap => .ret cap
      | none =>
        if devMapperLit.take 5 |>.isPrefixOf baseLvName then
          -- /dev/vg/lv  via  baseLvName[len("/dev/"):strings.LastIndex(baseLvName, "/")]
          match lastSlashIdx baseLvName with
          | some idx =>
            if idx < 5 then .panic
            else .ret ((baseLvName.drop 5).take (idx - 5))
          | none => .panic
        else
          .ret []
  match vgName with
  | .panic => .panic
  | .ret v => if v = [] then .err else .ok v

/- In the source, a split with a number of components other than two
returns an error immediately; the model folds it into the empty-name
error path, which produces the same `ExtractRes.err` (the two paths
differ only in the error message). -/

/-- The device-mapper path built by `executeContainer` (without the
`lvm:` tag that is stripped before parsing):
`/dev/mapper/<esc vg>-<esc name>` with `-` escaped as `--`. -/
def buildDevMapperPath (vg n : List Char) : List Char :=
  devMapperLit ++ escDashes vg ++ '-' :: escDashes n

/-! ## Volume Policy: `validateVolumesConfig` -/

/-- `LxcDriver.validateVolumesConfig`: each spec must split on `:` into
exactly two non-empty components and the container-side component must
not start with `/`.  The first failing spec aborts the walk with an
error; success is `nil`. -/
def validateVolumesConfig : List (List Char) → Except (List Char) Unit
  | [] => .ok ()
  | v :: rest =>
    match splitOnChar ':' v with
    | [p0, p1] =>
      if p0.length = 0 ∨ p1.length = 0 then
        .error ('i' :: 'n' :: 'v' :: 'a' :: 'l' :: 'i' :: 'd' :: [])
      else if p1.head? = some '/' then
        .error ('a' :: 'b' :: 's' :: 'o' :: 'l' :: 'u' :: 't' :: 'e' :: [])
      else
        validateVolumesConfig rest
    | _ => .error ('i' :: 'n' :: 'v' :: 'a' :: 'l' :: 'i' :: 'd' :: [])

/-- The acceptance condition exactly as the specification words it: the
spec splits on `:` into two non-empty components `h` and `c`, and `c`
does not start with `/`. -/
def specVolumeOk (v : List Char) : Prop :=
  ∃ h c : List Char,
    v = h ++ ':' :: c ∧ h ≠ [] ∧ c ≠ [] ∧ ':' ∉ h ∧ ':' ∉ c ∧ c.head? ≠ some '/'

/-! ## Lifecycle Handle: `Kill`, `cleanupContainer` and the Monitor -/

/-- Container operations a `Kill` call can perform. -/
inductive KillAct : Type
  | shutdown   -- `container.Shutdown(killTimeout)`
  | stop       -- `container.Stop()`
  | destroy    -- `container.Destroy()`
  deriving Repr, DecidableEq

/-- Outcomes of the external container calls made by `Kill`. -/
structure KillEnv : Type where
  running : Bool       -- `container.Running()`
  shutdownOk : Bool    -- `container.Shutdown(timeout)` succeeds
  stopOk : Bool        -- `container.Stop()` succeeds
  destroyOk : Bool     -- `container.Destroy()` succeeds
  deriving Repr, DecidableEq

/-- State of the kill-request channel `doneCh`. -/
structure ChanSt : Type where
  doneClosed : Bool
  deriving Repr, DecidableEq

/-- `lxcDriverHandle.Kill` of the current variant.  The function body
runs first (returning `none` on success or an error message), then the
deferred `close(h.doneCh)` runs: closing an already-closed Go channel
is a runtime panic.  Returns the Go outcome, the container operations
performed, and the new channel state. -/
def killA (env : KillEnv) (ch : ChanSt) : GoRes (Option (List Char)) × List KillAct × ChanSt :=
  let body : Option (List Char) × List KillAct :=
    if ¬ env.running then
      (none, [])
    else if env.shutdownOk then
      (none, [.shutdown])
    else if env.stopOk then
      (none, [.shutdown, .stop])
    else
      (some ('s' :: 't' :: 'o' :: 'p' :: []), [.shutdown, .stop])
  if ch.doneClosed then
    (.panic, body.2, ch)
  else
    (.ret body.1, body.2, ⟨true⟩)

/-- `lxcDriverHandle.Kill` of the legacy variant: after stopping it
destroys the container itself, and only then closes `doneCh` (no
`defer`, so error returns skip the close). -/
def killGo (env : KillEnv) (ch : ChanSt) : GoRes (Option (List Char)) × List KillAct × ChanSt :=
  if env.running ∧ ¬ env.shutdownOk ∧ ¬ env.stopOk then
    (.ret (some ('s' :: 't' :: 'o' :: 'p' :: [])), [.shutdown, .stop], ch)
  else
    let acts : List KillAct :=
      (if ¬ env.running then [] else if env.shutdownOk then [.shutdown] else [.shutdown, .stop])
        ++ [.destroy]
    if ¬ env.destroyOk then
      (.ret (some ('d' :: 'e' :: 's' :: 't' :: 'r' :: 'o' :: 'y' :: [])), acts, ch)
    else if ch.doneClosed then
      (.panic, acts, ch)
    else
      (.ret none, acts, ⟨true⟩)

/-- Teardown operations performed by the Monitor's deferred cleanup. -/
inductive MonAct : Type
  | waitStopped   -- `container.Wait(lxc.STOPPED, 15s)`
  | destroy       -- `container.Destroy()`
  deriving Repr, DecidableEq

/-- `lxcDriverHandle.cleanupContainer` of the current variant: wait up
to 15 seconds for the stopped state (timeout only logged), then destroy
the container.  Returns the error outcome and the operations. -/
def cleanupContainer (destroyOk : Bool) : Option (List Char) × List MonAct :=
  if destroyOk then
    (none, [.waitStopped, .destroy])
  else
    (some ('d' :: 'e' :: 's' :: 't' :: 'r' :: 'o' :: 'y' :: []), [.waitStopped, .destroy])

/-- One wakeup of the Monitor's `select`: either the 2-second timer
fires (with the outcome of `os.FindProcess` and of the zero-signal
liveness probe), or the kill-request channel `doneCh` is signalled. -/
inductive MonEv : Type
  | tick (findOk : Bool) (aliveOk : Bool)
  | done
  deriving Repr, DecidableEq

/-- Observable operations of the Monitor: sends on the
termination-result channel `waitCh`, the authoritative teardown, and
the close of `waitCh`. -/
inductive RunOp : Type
  | sendErr     -- `waitCh <- &WaitResult{Err: err}`
  | sendOk      -- `waitCh <- &WaitResult{}`
  | teardown    -- `cleanupContainer()` in the deferred block
  | closeWait   -- `close(waitCh)` in the deferred block
  deriving Repr, DecidableEq

/-- The loop body of `lxcDriverHandle.run` (current variant), driven by
a schedule of wakeups; returns the sends it performs before returning,
or `none` when the schedule is exhausted with the loop still live. -/
def runLoop : List MonEv → Option (List RunOp)
  | [] => none
  | .tick false _ :: _ => some [.sendErr]
  | .tick true false :: _ => some [.sendOk]
  | .tick true true :: rest => runLoop rest
  | .done :: _ => some [.sendOk]

/-- `lxcDriverHandle.run` of the current variant: the loop body plus the
deferred block, which runs `cleanupContainer` and then closes `waitCh`
once the loop returns. -/
def runA (evs : List MonEv) : Option (List RunOp) :=
  match runLoop evs with
  | some ops => some (ops ++ [.teardown, .closeWait])
  | none => none

/-! ## Clone Provisioner: `executeContainer` -/

/-- Error classes of `executeContainer`, in source order. -/
inductive ExecErr : Type
  | mkdirFail
  | unsupportedBackend   -- "only LVM is supported as a base to clone from"
  | lvcreateFail
  | vgParse              -- "Could not parse LVM Volume Group name from ..."
  | createFileFail
  | chmodFail
  | tmplParseFail
  | renderFail
  | loadConfigFail
  | commonConfigFail
  | startExecuteFail
  | limitsFail
  deriving Repr, DecidableEq

/-- Side effects committed by `executeContainer`, in commit order. -/
inductive Committed : Type
  | mkdir
  | lvcreate       -- the thin logical-volume snapshot of step 3
  | createFile
  | renderConfig
  | loadConfig
  | commonConfig
  | startExecute
  | limits
  deriving Repr, DecidableEq

/-- Undo operations of the cleanup closures of `executeContainer`,
listed in the order the chosen closure executes them. -/
inductive Undo : Type
  | lvremove       -- `lvremove -f vg/name`
  | removeFile     -- `os.Remove(newConfigFilePath)`
  | stopContainer  -- `container.Stop()`
  deriving Repr, DecidableEq

/-- Outcomes of the external calls `executeContainer` makes. -/
structure ExecEnv : Type where
  mkdirOk : Bool
  lvcreateOk : Bool
  createOk : Bool
  chmodOk : Bool
  tmplParseOk : Bool
  renderOk : Bool
  loadOk : Bool
  commonOk : Bool
  startOk : Bool
  limitsOk : Bool
  deriving Repr, DecidableEq

/-- The all-successful environment. -/
def execEnvOk : ExecEnv := ⟨true, true, true, true, true, true, true, true, true, true⟩

/-- `LxcDriver.executeContainer` (current variant), modelled as the
sequence of effectful steps of the source with the result, the cleanup
closure the caller receives (as the list of undo operations it would
run, in its execution order), and the side effects committed so far.
`baseRootFsPath[:4]` panics when the path is shorter than 4 bytes. -/
def executeContainer (baseRootFsPath : List Char) (env : ExecEnv) :
    GoRes (Option ExecErr × List Undo) × List Committed :=
  if ¬ env.mkdirOk then
    (.ret (some .mkdirFail, []), [])
  else if baseRootFsPath.length < 4 then
    (.panic, [.mkdir])
  else if baseRootFsPath.take 4 ≠ ('l' :: 'v' :: 'm' :: ':' :: []) then
    (.ret (some .unsupportedBackend, []), [.mkdir])
  else
    let baseLvName := baseRootFsPath.drop 4
    if ¬ env.lvcreateOk then
      (.ret (some .lvcreateFail, []), [.mkdir])
    else
      match extractVgName baseLvName with
      | .panic => (.panic, [.mkdir, .lvcreate])
      | .err => (.ret (some .vgParse, []), [.mkdir, .lvcreate])
      | .ok _ =>
        -- removeLVCleanup is defined here, after the parse succeeded
        let removeLV : List Undo := [.lvremove]
        if ¬ env.createOk then
          (.ret (some .createFileFail, removeLV), [.mkdir, .lvcreate])
        else
          let removeConfig : List Undo := [.lvremove, .removeFile]
          if ¬ env.chmodOk then
            (.ret (some .chmodFail, removeConfig), [.mkdir, .lvcreate, .createFile])
          else if ¬ env.tmplParseOk then
            (.ret (some .tmplParseFail, removeConfig), [.mkdir, .lvcreate, .createFile])
          else if ¬ env.renderOk then
            (.ret (some .renderFail, removeConfig), [.mkdir, .lvcreate, .createFile])
          else if ¬ env.loadOk then
            (.ret (some .loadConfigFail, removeConfig),
              [.mkdir, .lvcreate, .createFile, .renderConfig])
          else if ¬ env.commonOk then
            (.ret (some .commonConfigFail, removeConfig),
              [.mkdir, .lvcreate, .createFile, .renderConfig, .loadConfig])
          else if ¬ env.startOk then
            (.ret (some .startExecuteFail, removeConfig),
              [.mkdir, .lvcreate, .createFile, .renderConfig, .loadConfig, .commonConfig])
          else
            -- stopAndRemoveConfigCleanup runs removeConfigCleanup() first, then Stop()
            let stopAndRemove : List Undo := [.lvremove, .removeFile, .stopContainer]
            if ¬ env.limitsOk then
              (.ret (some .limitsFail, stopAndRemove),
                [.mkdir, .lvcreate, .createFile, .renderConfig, .loadConfig, .commonConfig,
                  .startExecute])
            else
              (.ret (none, []),
                [.mkdir, .lvcreate, .createFile, .renderConfig, .loadConfig, .commonConfig,
                  .startExecute, .limits])

/-! ## Stats Translator -/

/-- `strconv.ParseUint(s, 10, 64)`: non-empty, all ASCII digits, and
within 64 bits. -/
def parseUint64 (s : List Char) : Option Nat :=
  if s ≠ [] ∧ s.all Char.isDigit then
    let v := s.foldl (fun a c => a * 10 + (c.toNat - 48)) 0
    if v < 2 ^ 64 then some v else none
  else
    none

/-- `keysToVal`: split the line on a space into exactly two tokens and
parse the second as an unsigned 64-bit integer. -/
def keysToVal (line : List Char) : Option (List Char × Nat) :=
  match splitOnChar ' ' line with
  | [k, vstr] => (parseUint64 vstr).map (fun v => (k, v))
  | _ => none

/-- Modelled from the spec: the `stats.CpuStats` rate accumulator of
`client/stats` (not under `src/`) holds the last sample's tick count
and wall-clock time; `Percent` returns 0 on the first sample and
otherwise "delta ticks since last sample ÷ elapsed wall time", and
stores the new sample. -/
structure CpuStats : Type where
  prev : Option (ℚ × ℚ)   -- (ticks of last sample, wall time of last sample)
  deriving DecidableEq

/-- Modelled from the spec: a fresh accumulator (`stats.NewCpuStats()`),
which yields 0% until a second sample exists. -/
def CpuStats.fresh : CpuStats := ⟨none⟩

/-- Modelled from the spec: one `Percent` sample, returning the
percentage and the updated accumulator (division by an elapsed time of
zero is 0 by `ℚ` convention). -/
def CpuStats.percent (c : CpuStats) (now ticks : ℚ) : ℚ × CpuStats :=
  match c.prev with
  | none => (0, ⟨some (ticks, now)⟩)
  | some (pt, ptime) => ((ticks - pt) / (now - ptime), ⟨some (ticks, now)⟩)

/-- The three rate accumulators held by `lxcDriverHandle`. -/
structure HandleCpu : Type where
  totalCpuStats : CpuStats
  userCpuStats : CpuStats
  systemCpuStats : CpuStats
  deriving DecidableEq

/-- Accumulators of a handle fresh from `Start` or `Open`
(`stats.NewCpuStats()` three times). -/
def HandleCpu.fresh : HandleCpu := ⟨.fresh, .fresh, .fresh⟩

/-- The CPU half of a `cstructs.CpuStats` snapshot. -/
structure CpuOut : Type where
  systemMode : ℚ
  userMode : ℚ
  percent : ℚ
  totalTicks : Nat
  deriving DecidableEq

/-- The CPU part of `lxcDriverHandle.Stats` as written in the source
(both variants): `SystemMode` and `UserMode` are both computed from
`h.systemCpuStats`, `Percent` from `h.totalCpuStats`; `h.userCpuStats`
is never touched.  The struct fields are evaluated in source order, so
the `UserMode` call sees the accumulator state left by the `SystemMode`
call; `t1 ≤ t2 ≤ t3` are the `time.Now()` values of the three calls. -/
def statsCpu (h : HandleCpu) (t1 t2 t3 : ℚ) (system user total : Nat) :
    CpuOut × HandleCpu :=
  let (sysPct, sys1) := h.systemCpuStats.percent t1 (system : ℚ)
  let (userPct, sys2) := sys1.percent t2 (user : ℚ)
  let (totPct, tot1) := h.totalCpuStats.percent t3 (total : ℚ)
  (⟨sysPct, userPct, totPct, user + system⟩,
    ⟨tot1, h.userCpuStats, sys2⟩)

/-- What the specification says `statsCpu` should be: each percentage
from its own accumulator (system from the system accumulator, user from
the user accumulator, total from the total accumulator). -/
def specStatsCpu (h : HandleCpu) (t1 t2 t3 : ℚ) (system user total : Nat) :
    CpuOut × HandleCpu :=
  let (sysPct, sys1) := h.systemCpuStats.percent t1 (system : ℚ)
  let (userPct, user1) := h.userCpuStats.percent t2 (user : ℚ)
  let (totPct, tot1) := h.totalCpuStats.percent t3 (total : ℚ)
  (⟨sysPct, userPct, totPct, user + system⟩,
    ⟨tot1, user1, sys1⟩)

/-- The memory fields kept in the `memData` map of `Stats`. -/
structure MemOut : Type where
  rss : Nat
  cache : Nat
  swap : Nat
  maxUsage : Nat
  kernelUsage : Nat
  kernelMaxUsage : Nat
  deriving Repr, DecidableEq

/-- The `memory.stat` loop of `Stats`: malformed lines are skipped;
only the keys already present in `memData` (`rss`, `cache`, `swap`)
are updated. -/
def memStatFold (lines : List (List Char)) : Nat × Nat × Nat :=
  lines.foldl
    (fun acc line =>
      match keysToVal line with
      | none => acc
      | some (k, v) =>
        if k = ('r' :: 's' :: 's' :: []) then (v, acc.2.1, acc.2.2)
        else if k = ('c' :: 'a' :: 'c' :: 'h' :: 'e' :: []) then (acc.1, v, acc.2.2)
        else if k = ('s' :: 'w' :: 'a' :: 'p' :: []) then (acc.1, acc.2.1, v)
        else acc)
    (0, 0, 0)

/-- The single-value cgroup-file loops of `Stats`: each line that
parses overwrites the field, lines that do not parse are skipped, the
field starts at its zero value. -/
def lastParsed (lines : List (List Char)) : Nat :=
  lines.foldl
    (fun acc line =>
      match parseUint64 line with
      | some v => v
      | none => acc)
    0

/-- The container-side observations `Stats` consumes: the CPU map and
total (`none` when the call errors), and the raw cgroup lines
(`container.CgroupItem` returns a plain string slice). -/
structure StatsEnv : Type where
  cpuSample : Option (Nat × Nat)   -- `CPUStats()`: (system, user), or error
  cpuTotal : Option Nat            -- `CPUTime()`, or error
  memStatLines : List (List Char)  -- `CgroupItem("memory.stat")`
  maxUsageLines : List (List Char) -- `CgroupItem("memory.max_usage_in_bytes")`
  kmemUsageLines : List (List Char)    -- `CgroupItem("memory.kmem.usage_in_bytes")`
  kmemMaxUsageLines : List (List Char) -- `CgroupItem("memory.kmem.max_usage_in_bytes")`
  t1 : ℚ
  t2 : ℚ
  t3 : ℚ

/-- A `cstructs.TaskResourceUsage` snapshot (the fields the claims are
about). -/
structure UsageSnap : Type where
  cpu : CpuOut
  mem : MemOut
  deriving DecidableEq

/-- `lxcDriverHandle.Stats` (both variants): a failing base CPU sample
returns `(nil, nil)`; otherwise a snapshot is assembled with the memory
loops above and the error result is `nil`.  Returns the snapshot
option, the error option, and the updated accumulators. -/
def lxcStats (h : HandleCpu) (env : StatsEnv) :
    Option UsageSnap × Option (List Char) × HandleCpu :=
  match env.cpuSample with
  | none => (none, none, h)
  | some (system, user) =>
    match env.cpuTotal with
    | none => (none, none, h)
    | some total =>
      let csh := statsCpu h env.t1 env.t2 env.t3 system user total
      let m := memStatFold env.memStatLines
      let ms : MemOut :=
        ⟨m.1, m.2.1, m.2.2, lastParsed env.maxUsageLines,
          lastParsed env.kmemUsageLines, lastParsed env.kmemMaxUsageLines⟩
      (some ⟨csh.1, ms⟩, none, csh.2)

/-! ## Lemmas about `splitOnChar` -/

theorem splitOnChar_ne_nil (sep : Char) (l : List Char) : splitOnChar sep l ≠ [] := by
  induction l with
  | nil => simp [splitOnChar]
  | cons c rest ih =>
    simp only [splitOnChar]
    split
    · simp
    · split
      · simp
      · simp

theorem splitOnChar_no_sep (sep : Char) (l : List Char) (h : sep ∉ l) :
    splitOnChar sep l = [l] := by
  induction l with
  | nil => rfl
  | cons c rest ih =>
    simp only [List.mem_cons, not_or] at h
    have hc : ¬ c = sep := fun hcs => h.1 hcs.symm
    simp only [splitOnChar, if_neg hc, ih h.2]

theorem splitOnChar_append (sep : Char) (a b : List Char) (ha : sep ∉ a) :
    splitOnChar sep (a ++ sep :: b) = a :: splitOnChar sep b := by
  induction a with
  | nil => simp [splitOnChar]
  | cons c a' ih =>
    simp only [List.mem_cons, not_or] at ha
    have hc : ¬ c = sep := fun hcs => ha.1 hcs.symm
    have hr := ih ha.2
    simp only [List.cons_append, splitOnChar, if_neg hc, List.append_eq, hr]

theorem splitOnChar_eq_single (sep : Char) (l x : List Char)
    (h : splitOnChar sep l = [x]) : l = x ∧ sep ∉ l := by
  induction l generalizing x with
  | nil =>
    simp only [splitOnChar] at h
    obtain rfl : ([] : List Char) = x := by simpa using h
    simp
  | cons c rest ih =>
    simp only [splitOnChar] at h
    by_cases hc : c = sep
    · rw [if_pos hc] at h
      have : splitOnChar sep rest = [] := by
        cases hx : splitOnChar sep rest with
        | nil => rfl
        | cons a t => rw [hx] at h; simp at h
      exact absurd this (splitOnChar_ne_nil sep rest)
    · rw [if_neg hc] at h
      cases hx : splitOnChar sep rest with
      | nil => exact absurd hx (splitOnChar_ne_nil sep rest)
      | cons a t =>
        rw [hx] at h
        obtain ⟨h1, h2⟩ : c :: a = x ∧ t = [] := by
          constructor
          · exact (List.cons_eq_cons.mp h).1
          · exact (List.cons_eq_cons.mp h).2
        subst h2
        have := ih a (by rw [hx])
        constructor
        · rw [← h1, this.1]
        · simp only [List.mem_cons, not_or]
          exact ⟨fun hcs => hc hcs.symm, this.2⟩

theorem splitOnChar_eq_pair (sep : Char) (l p0 p1 : List Char)
    (h : splitOnChar sep l = [p0, p1]) :
    l = p0 ++ sep :: p1 ∧ sep ∉ p0 ∧ sep ∉ p1 := by
  induction l generalizing p0 with
  | nil => simp [splitOnChar] at h
  | cons c rest ih =>
    simp only [splitOnChar] at h
    by_cases hc : c = sep
    · rw [if_pos hc] at h
      obtain ⟨h1, h2⟩ := List.cons_eq_cons.mp h
      obtain ⟨hr1, hr2⟩ := splitOnChar_eq_single sep rest p1 (by rw [h2])
      subst hc
      refine ⟨?_, ?_, ?_⟩
      · rw [← h1, hr1]; rfl
      · rw [← h1]; simp
      · rw [← hr1]; exact hr2
    · rw [if_neg hc] at h
      cases hx : splitOnChar sep rest with
      | nil => exact absurd hx (splitOnChar_ne_nil sep rest)
      | cons a t =>
        rw [hx] at h
        obtain ⟨h1, h2⟩ := List.cons_eq_cons.mp h
        have := ih a (by rw [hx, h2])
        refine ⟨?_, ?_, this.2.2⟩
        · rw [← h1, List.cons_append, this.1]
        · rw [← h1]
          simp only [List.mem_cons, not_or]
          exact ⟨fun hcs => hc hcs.symm, this.2.1⟩

/-! ## C9: volume-spec validation -/

theorem validateVolumes_cons (v : List Char) (rest : List (List Char)) :
    validateVolumesConfig (v :: rest) = .ok () ↔
      specVolumeOk v ∧ validateVolumesConfig rest = .ok () := by
  constructor
  · intro h
    simp only [validateVolumesConfig] at h
    split at h
    · next p0 p1 hsp =>
      split at h
      · simp at h
      · next hlen =>
        split at h
        · simp at h
        · next hhead =>
          obtain ⟨hl, h0, h1⟩ := splitOnChar_eq_pair ':' v p0 p1 hsp
          push_neg at hlen
          refine ⟨⟨p0, p1, hl, ?_, ?_, h0, h1, hhead⟩, h⟩
          · exact List.length_pos.mp (by omega)
          · exact List.length_pos.mp (by omega)
    · simp at h
  · rintro ⟨⟨hp, cp, rfl, hh, hcne, hns0, hns1, hhead⟩, hrest⟩
    simp only [validateVolumesConfig, splitOnChar_append ':' hp cp hns0,
      splitOnChar_no_sep ':' cp hns1]
    rw [if_neg, if_neg hhead]
    · exact hrest
    · push_neg
      constructor
      · exact fun hz => hh (List.length_eq_zero.mp hz)
      · exact fun hz => hcne (List.length_eq_zero.mp hz)

/-- C9: volume-spec validation accepts exactly the specs that split on
`:` into two non-empty components whose container-side component does
not start with `/`; every other spec is rejected with the volume-config
error.  (The embedding is a pure function, so validation has no side
effects.) -/
theorem volume_validation_exact (vols : List (List Char)) :
    validateVolumesConfig vols = .ok () ↔ ∀ v ∈ vols, specVolumeOk v := by
  induction vols with
  | nil => simp [validateVolumesConfig]
  | cons v rest ih =>
    rw [validateVolumes_cons, ih]
    simp

/-- Witness for C9 at concrete inputs: `data:srv` is accepted, via the
equivalence. -/
theorem volume_validation_exact_witness :
    validateVolumesConfig [('d' :: 'a' :: 't' :: 'a' :: ':' :: 's' :: 'r' :: 'v' :: [])] =
      .ok () := by
  refine (volume_validation_exact _).mpr ?_
  intro v hv
  simp only [List.mem_singleton] at hv
  subst hv
  exact ⟨('d' :: 'a' :: 't' :: 'a' :: []), ('s' :: 'r' :: 'v' :: []), rfl, by decide,
    by decide, by decide, by decide, by decide⟩

/-! ## C1: who destroys the container -/

/-- C1 counterexample: in the legacy variant, a `Kill` call on a handle
whose container is already stopped performs the destroy itself — the
claim that in every variant `Kill` never destroys the container is
false. -/
theorem kill_destroys_in_legacy_counterexample :
    KillAct.destroy ∈ (killGo ⟨false, true, true, true⟩ ⟨false⟩).2.1 := by
  decide

/-- C1 (amended): in the current variant, `Kill` never destroys the
container — it only shuts down or stops it, destruction being performed
solely by the Monitor's `cleanupContainer` teardown; in the legacy
variant, however, `Kill` itself destroys the container on every path
except a failed forced stop. -/
theorem kill_destroy_ownership (env : KillEnv) (ch : ChanSt) (dOk : Bool) :
    KillAct.destroy ∉ (killA env ch).2.1 ∧
    (∀ a ∈ (killA env ch).2.1, a = KillAct.shutdown ∨ a = KillAct.stop) ∧
    MonAct.destroy ∈ (cleanupContainer dOk).2 ∧
    (KillAct.destroy ∈ (killGo env ch).2.1 ↔
      ¬(env.running = true ∧ env.shutdownOk = false ∧ env.stopOk = false)) := by
  rcases env with ⟨r, s, st, d⟩
  rcases ch with ⟨dc⟩
  cases r <;> cases s <;> cases st <;> cases d <;> cases dc <;> cases dOk <;> decide

/-! ## C2: Kill idempotence -/

/-- C2: the second `Kill` on the same handle is not a no-op: the first
call succeeds and closes the kill-request channel, and the second call
runs the deferred `close(h.doneCh)` on the already-closed channel — a
runtime panic, not a no-op success. -/
theorem kill_twice_panics :
    (killA ⟨true, true, true, true⟩ ⟨false⟩).1 = GoRes.ret none ∧
    ((killA ⟨true, true, true, true⟩ ⟨false⟩).2.2).doneClosed = true ∧
    (killA ⟨true, true, true, true⟩
        ((killA ⟨true, true, true, true⟩ ⟨false⟩).2.2)).1 = GoRes.panic := by
  decide

/-! ## C3: exactly-once termination result -/

theorem runLoop_sends (evs : List MonEv) (ops : List RunOp) (h : runLoop evs = some ops) :
    ops = [RunOp.sendErr] ∨ ops = [RunOp.sendOk] := by
  induction evs with
  | nil => simp [runLoop] at h
  | cons e rest ih =>
    cases e with
    | tick f a =>
      cases f with
      | false =>
        left
        simp only [runLoop, Option.some.injEq] at h
        exact h.symm
      | true =>
        cases a with
        | false =>
          right
          simp only [runLoop, Option.some.injEq] at h
          exact h.symm
        | true => exact ih h
    | done =>
      right
      simp only [runLoop, Option.some.injEq] at h
      exact h.symm

/-- C3: whenever the Monitor's loop terminates — via the process-death
detection of a timer tick or via the kill-request signal — its
observable trace is exactly one send on the termination-result channel,
followed by the authoritative teardown, followed by exactly one close
of the channel. -/
theorem monitor_exactly_once (evs : List MonEv) (tr : List RunOp)
    (h : runA evs = some tr) :
    ∃ s, (s = RunOp.sendErr ∨ s = RunOp.sendOk) ∧
      tr = [s, RunOp.teardown, RunOp.closeWait] := by
  unfold runA at h
  cases hl : runLoop evs with
  | none => rw [hl] at h; simp at h
  | some ops =>
    rw [hl] at h
    simp only [Option.some.injEq] at h
    rcases runLoop_sends evs ops hl with h1 | h1
    · exact ⟨RunOp.sendErr, Or.inl rfl, by rw [← h, h1]; rfl⟩
    · exact ⟨RunOp.sendOk, Or.inr rfl, by rw [← h, h1]; rfl⟩

/-- Witness for C3: the kill-request trigger, concretely. -/
theorem monitor_exactly_once_witness :
    ∃ s, (s = RunOp.sendErr ∨ s = RunOp.sendOk) ∧
      ([RunOp.sendOk, RunOp.teardown, RunOp.closeWait] : List RunOp) =
        [s, RunOp.teardown, RunOp.closeWait] :=
  monitor_exactly_once [MonEv.done] _ rfl

/-! ## C4: rollback after a volume-group parse failure -/

/-- C4: with every external step succeeding and a base reference
`lvm:/x` whose volume-group name cannot be parsed, `executeContainer`
has already committed the snapshot (`lvcreate`), fails with the
volume-group parse error, and hands back the *empty* cleanup — the
snapshot of step 3 is not removed, contrary to the claim. -/
theorem vgparse_failure_leaks_snapshot :
    executeContainer ('l' :: 'v' :: 'm' :: ':' :: '/' :: 'x' :: []) execEnvOk =
      (GoRes.ret (some ExecErr.vgParse, []), [Committed.mkdir, Committed.lvcreate]) := by
  decide

/-! ## C5: non-LVM base references -/

/-- C5: a clone-mode configuration whose `base_rootfs_path` is shorter
than four characters does not fail with the unsupported-backend error:
the slice `BaseRootFsPath[:4]` aborts with a runtime panic (slice
bounds out of range) before the prefix is ever compared. -/
theorem short_base_rootfs_panics :
    executeContainer ('l' :: 'v' :: []) execEnvOk = (GoRes.panic, [Committed.mkdir]) := by
  decide

/-! ## C6: CPU percentage accumulators -/

/-- C6: `Stats` computes the user-mode percentage from the *system*
accumulator, not the user accumulator.  Starting from a fresh handle,
after a first sample at time 0 and a second at time 100 with 50 system
ticks and 80 user ticks, the source's wiring yields a user-mode
percentage of 0 and leaves `userCpuStats` untouched (still fresh),
whereas the specified independent-accumulator wiring yields 80/100. -/
theorem usermode_uses_system_accumulator :
    (statsCpu (statsCpu HandleCpu.fresh 0 0 0 0 0 0).2 100 100 100 50 80 130).1.userMode
        = 0 ∧
    (statsCpu (statsCpu HandleCpu.fresh 0 0 0 0 0 0).2 100 100 100 50 80 130).2.userCpuStats
        = CpuStats.fresh ∧
    (specStatsCpu (specStatsCpu HandleCpu.fresh 0 0 0 0 0 0).2 100 100 100 50 80 130).1.userMode
        = 4 / 5 := by
  refine ⟨?_, rfl, ?_⟩
  · simp [statsCpu, CpuStats.percent, HandleCpu.fresh, CpuStats.fresh]
  · simp [specStatsCpu, CpuStats.percent, HandleCpu.fresh, CpuStats.fresh]
    norm_num

/-! ## C10: Stats error behaviour -/

theorem lastParsed_all_none (lines : List (List Char))
    (h : ∀ l ∈ lines, parseUint64 l = none) : lastParsed lines = 0 := by
  suffices hgen : ∀ acc : Nat,
      lines.foldl
        (fun acc line => match parseUint64 line with | some v => v | none => acc) acc = acc by
    exact hgen 0
  induction lines with
  | nil => intro acc; rfl
  | cons l rest ih =>
    intro acc
    have hl : parseUint64 l = none := h l (by simp)
    simp only [List.foldl_cons, hl]
    exact ih (fun x hx => h x (by simp [hx])) acc

theorem memStatFold_all_none (lines : List (List Char))
    (h : ∀ l ∈ lines, keysToVal l = none) : memStatFold lines = (0, 0, 0) := by
  suffices hgen : ∀ acc : Nat × Nat × Nat,
      lines.foldl
        (fun acc line =>
          match keysToVal line with
          | none => acc
          | some (k, v) =>
            if k = ('r' :: 's' :: 's' :: []) then (v, acc.2.1, acc.2.2)
            else if k = ('c' :: 'a' :: 'c' :: 'h' :: 'e' :: []) then (acc.1, v, acc.2.2)
            else if k = ('s' :: 'w' :: 'a' :: 'p' :: []) then (acc.1, acc.2.1, v)
            else acc) acc = acc by
    exact hgen (0, 0, 0)
  induction lines with
  | nil => intro acc; rfl
  | cons l rest ih =>
    intro acc
    have hl : keysToVal l = none := h l (by simp)
    simp only [List.foldl_cons, hl]
    exact ih (fun x hx => h x (by simp [hx])) acc

/-- C10: `Stats` never returns a non-nil error.  The snapshot is `nil`
exactly when the base CPU sample (`CPUStats()` or `CPUTime()`) cannot
be read, and in a returned snapshot every memory field whose cgroup
lines are all unreadable or malformed keeps its default value 0. -/
theorem stats_never_errors (h : HandleCpu) (env : StatsEnv) :
    (lxcStats h env).2.1 = none ∧
    ((lxcStats h env).1 = none ↔ (env.cpuSample = none ∨ env.cpuTotal = none)) ∧
    ∀ u, (lxcStats h env).1 = some u →
      ((∀ l ∈ env.memStatLines, keysToVal l = none) →
        u.mem.rss = 0 ∧ u.mem.cache = 0 ∧ u.mem.swap = 0) ∧
      ((∀ l ∈ env.maxUsageLines, parseUint64 l = none) → u.mem.maxUsage = 0) ∧
      ((∀ l ∈ env.kmemUsageLines, parseUint64 l = none) → u.mem.kernelUsage = 0) ∧
      ((∀ l ∈ env.kmemMaxUsageLines, parseUint64 l = none) → u.mem.kernelMaxUsage = 0) := by
  cases hs : env.cpuSample with
  | none =>
    refine ⟨?_, ?_, ?_⟩
    · simp [lxcStats, hs]
    · simp [lxcStats, hs]
    · intro u hu; simp [lxcStats, hs] at hu
  | some p =>
    cases ht : env.cpuTotal with
    | none =>
      refine ⟨?_, ?_, ?_⟩
      · simp [lxcStats, hs, ht]
      · simp [lxcStats, hs, ht]
      · intro u hu; simp [lxcStats, hs, ht] at hu
    | some total =>
      refine ⟨?_, ?_, ?_⟩
      · simp [lxcStats, hs, ht]
      · simp [lxcStats, hs, ht]
      · intro u hu
        simp only [lxcStats, hs, ht] at hu
        obtain rfl : u = _ := (Option.some.injEq _ _).mp hu.symm
        refine ⟨?_, ?_, ?_, ?_⟩
        · intro hm
          have := memStatFold_all_none env.memStatLines hm
          simp [this]
        · intro hm; simpa using lastParsed_all_none env.maxUsageLines hm
        · intro hm; simpa using lastParsed_all_none env.kmemUsageLines hm
        · intro hm; simpa using lastParsed_all_none env.kmemMaxUsageLines hm

/-- Witness for C10 at a concrete environment: an unreadable CPU sample
yields no data and no error. -/
theorem stats_never_errors_witness :
    (lxcStats HandleCpu.fresh ⟨none, none, [], [], [], [], 0, 0, 0⟩).2.1 = none ∧
    (lxcStats HandleCpu.fresh ⟨none, none, [], [], [], [], 0, 0, 0⟩).1 = none :=
  ⟨(stats_never_errors HandleCpu.fresh _).1,
    (stats_never_errors HandleCpu.fresh _).2.1.mpr (Or.inl rfl)⟩

/-! ## Lemmas about `escDashes`, the greedy matcher and `extractVgName` -/

theorem escDashes_no_dash (l : List Char) (h : '-' ∉ l) : escDashes l = l := by
  induction l with
  | nil => rfl
  | cons c rest ih =>
    simp only [List.mem_cons, not_or] at h
    have hc : ¬ c = '-' := fun hcc => h.1 hcc.symm
    simp only [escDashes, if_neg hc, ih h.2]

/-- Every `-` in an escaped string is adjacent to another `-`. -/
theorem escDashes_dash_paired (lv : List Char) :
    ∀ i : Nat, (escDashes lv).get? i = some '-' →
      (escDashes lv).get? (i + 1) = some '-' ∨
        (1 ≤ i ∧ (escDashes lv).get? (i - 1) = some '-') := by
  induction lv with
  | nil => intro i h; simp [escDashes] at h
  | cons c rest ih =>
    intro i h
    by_cases hc : c = '-'
    · subst hc
      simp only [escDashes, if_pos rfl] at h ⊢
      match i with
      | 0 => left; rfl
      | 1 => right; exact ⟨le_refl 1, rfl⟩
      | k + 2 =>
        have h' : (escDashes rest).get? k = some '-' := h
        rcases ih k h' with h1 | ⟨hk, h1⟩
        · left; exact h1
        · right
          refine ⟨by omega, ?_⟩
          show ('-' :: '-' :: escDashes rest).get? (k + 1) = some '-'
          have : k + 1 = (k - 1) + 2 := by omega
          rw [this]
          exact h1
    · simp only [escDashes, if_neg hc] at h ⊢
      match i with
      | 0 => simp at h; exact absurd h hc
      | k + 1 =>
        have h' : (escDashes rest).get? k = some '-' := h
        rcases ih k h' with h1 | ⟨hk, h1⟩
        · left; exact h1
        · right
          refine ⟨by omega, ?_⟩
          show (c :: escDashes rest).get? k = some '-'
          have : k = (k - 1) + 1 := by omega
          rw [this]
          exact h1

theorem escDashes_head (c : Char) (rest : List Char) (hc : c ≠ '-') :
    escDashes (c :: rest) = c :: escDashes rest := by
  simp [escDashes, hc]

theorem isPrefixOf_append_self (l r : List Char) : l.isPrefixOf (l ++ r) = true :=
  List.isPrefixOf_iff_prefix.mpr ⟨r, rfl⟩

theorem greedyKAux_eq_of (r : List Char) (k : Nat) (hk : matchAt r k = true)
    (hmax : ∀ j, k < j → matchAt r j = false) :
    ∀ top, k ≤ top → greedyKAux r top = some k := by
  intro top
  induction top with
  | zero =>
    intro h0
    obtain rfl : k = 0 := Nat.le_zero.mp h0
    simp [greedyKAux, hk]
  | succ t ih =>
    intro hle
    by_cases hkt : k = t + 1
    · subst hkt
      simp [greedyKAux, hk]
    · have hkt' : k ≤ t := by omega
      have hfalse : matchAt r (t + 1) = false := hmax (t + 1) (by omega)
      simp only [greedyKAux, hfalse, Bool.false_eq_true, if_false]
      exact ih hkt'

/-- Unfolding equation for `findMapperCapture` on a non-empty list. -/
theorem findMapperCapture_cons (c : Char) (t : List Char) :
    findMapperCapture (c :: t) =
      if devMapperLit.isPrefixOf (c :: t) then
        match greedyK ((c :: t).drop 12) with
        | some k => some (((c :: t).drop 12).take (k + 1))
        | none => findMapperCapture t
      else findMapperCapture t := by
  rfl

/-- When the input starts with the literal `/dev/mapper/` and the rest
matches, the leftmost match is at position 0 and the capture is the
greedy one. -/
theorem findMapperCapture_at_lit (r : List Char) (k : Nat) (h : greedyK r = some k) :
    findMapperCapture (devMapperLit ++ r) = some (r.take (k + 1)) := by
  have hlit : devMapperLit ++ r =
      '/' :: (('d' :: 'e' :: 'v' :: '/' :: 'm' :: 'a' :: 'p' :: 'p' :: 'e' :: 'r' :: '/' :: []) ++ r) := by
    rfl
  rw [hlit, findMapperCapture_cons, ← hlit,
    if_pos (isPrefixOf_append_self devMapperLit r)]
  have hdrop : (devMapperLit ++ r).drop 12 = r := List.drop_left devMapperLit r
  rw [hdrop, h]

/-- A successful regex search implies the literal occurs in the input. -/
theorem findMapperCapture_some_infix (s cap : List Char)
    (h : findMapperCapture s = some cap) : ∃ u w, s = u ++ devMapperLit ++ w := by
  induction s with
  | nil => simp [findMapperCapture] at h
  | cons x t ih =>
    rw [findMapperCapture_cons] at h
    by_cases hp : devMapperLit.isPrefixOf (x :: t) = true
    · obtain ⟨w, hw⟩ := List.isPrefixOf_iff_prefix.mp hp
      exact ⟨[], w, by rw [← hw]; rfl⟩
    · rw [if_neg hp] at h
      obtain ⟨u, w, hw⟩ := ih h
      exact ⟨x :: u, w, by rw [hw]; rfl⟩

/-- If two strings that are `sep`-free before their first explicit
slash agree, the parts before the slash agree. -/
theorem slash_split_unique (a : List Char) :
    ∀ (c b d : List Char), '/' ∉ a → '/' ∉ c →
      a ++ '/' :: b = c ++ '/' :: d → a = c := by
  induction a with
  | nil =>
    intro c b d _ hc h
    cases c with
    | nil => rfl
    | cons y c' =>
      rw [List.nil_append, List.cons_append, List.cons_eq_cons] at h
      have hy : y = '/' := h.1.symm
      subst hy
      exact absurd (List.mem_cons_self '/' c') hc
  | cons x a' ih =>
    intro c b d ha hc h
    cases c with
    | nil =>
      rw [List.nil_append, List.cons_append, List.cons_eq_cons] at h
      have hx : x = '/' := h.1
      subst hx
      exact absurd (List.mem_cons_self '/' a') ha
    | cons y c' =>
      rw [List.cons_append, List.cons_append, List.cons_eq_cons] at h
      have := ih c' b d (fun hm => ha (List.mem_cons_of_mem x hm))
        (fun hm => hc (List.mem_cons_of_mem y hm)) h.2
      rw [h.1, this]

theorem lastSlashIdx_no_slash (l : List Char) (h : '/' ∉ l) : lastSlashIdx l = none := by
  induction l with
  | nil => rfl
  | cons c rest ih =>
    simp only [List.mem_cons, not_or] at h
    have hc : ¬ c = '/' := fun hcc => h.1 hcc.symm
    simp only [lastSlashIdx, ih h.2, if_neg hc]

theorem lastSlashIdx_append_slash (a b : List Char) (hb : '/' ∉ b) :
    lastSlashIdx (a ++ '/' :: b) = some a.length := by
  induction a with
  | nil => simp [lastSlashIdx, lastSlashIdx_no_slash b hb]
  | cons c a' ih =>
    simp only [List.cons_append, lastSlashIdx, List.append_eq, ih, List.length_cons]

theorem matchAt_iff (r : List Char) (k : Nat) :
    matchAt r k = true ↔
      (∀ c ∈ r.take k, isVgChar c = true) ∧
      (∃ y, r.get? k = some y ∧ y ≠ '-') ∧
      r.get? (k + 1) = some '-' ∧
      (∃ z, r.get? (k + 2) = some z ∧ z ≠ '-') := by
  unfold matchAt
  cases hy : r.get? k with
  | none => simp [hy]
  | some y =>
    cases hd : r.get? (k + 1) with
    | none => simp [hd]
    | some d =>
      cases hz : r.get? (k + 2) with
      | none => simp [hz]
      | some z =>
        simp [List.all_eq_true, Bool.and_eq_true, decide_eq_true_eq, and_assoc,
          eq_comm (a := d)]

/-- At the separator between the (dash-free) volume-group name and the
escaped container name, the pattern matches. -/
theorem matchAt_sep (vg e : List Char) (hne : vg ≠ [])
    (hchars : ∀ c ∈ vg, isVgChar c = true) (hnd : '-' ∉ vg)
    (he : ∃ z, e.get? 0 = some z ∧ z ≠ '-') :
    matchAt (vg ++ '-' :: e) (vg.length - 1) = true := by
  have hpos : 1 ≤ vg.length := List.length_pos.mpr hne
  rw [matchAt_iff]
  refine ⟨?_, ?_, ?_, ?_⟩
  · intro c hc
    rw [List.take_append_of_le_length (by omega)] at hc
    exact hchars c (List.take_subset _ vg hc)
  · have hlt : vg.length - 1 < vg.length := by omega
    rw [List.get?_append hlt, List.get?_eq_get hlt]
    exact ⟨vg.get ⟨vg.length - 1, hlt⟩, rfl,
      fun hdash => hnd (hdash ▸ List.get_mem vg _ hlt)⟩
  · rw [show vg.length - 1 + 1 = vg.length by omega,
      List.get?_append_right (le_refl vg.length), Nat.sub_self]
    rfl
  · obtain ⟨z, hz, hzne⟩ := he
    rw [show vg.length - 1 + 2 = vg.length + 1 by omega,
      List.get?_append_right (by omega),
      show vg.length + 1 - vg.length = 1 by omega]
    exact ⟨z, hz, hzne⟩

/-- Beyond the separator position, the pattern does not match: the
separator itself is hit at `j = vg.length`, and inside the escaped part
every dash is paired, so no isolated dash exists. -/
theorem matchAt_gt_false (vg lv : List Char) (hne : vg ≠ []) (j : Nat)
    (hj : vg.length - 1 < j) :
    matchAt (vg ++ '-' :: escDashes lv) j = false := by
  have hpos : 1 ≤ vg.length := List.length_pos.mpr hne
  by_contra hne'
  have hm : matchAt (vg ++ '-' :: escDashes lv) j = true := by
    cases h : matchAt (vg ++ '-' :: escDashes lv) j
    · exact absurd h hne'
    · rfl
  rw [matchAt_iff] at hm
  obtain ⟨_, ⟨y, hy, hyne⟩, hd, ⟨z, hz, hzne⟩⟩ := hm
  rcases Nat.lt_or_ge j (vg.length + 1) with hcase | hcase
  · -- j = vg.length: position j holds the separator dash itself
    have hjeq : j = vg.length := by omega
    rw [hjeq, List.get?_append_right (le_refl vg.length), Nat.sub_self] at hy
    exact hyne (by simpa using hy.symm)
  · -- j ≥ vg.length + 1: the dash at j + 1 is an isolated dash inside
    -- the escaped part, contradicting `escDashes_dash_paired`
    set e := escDashes lv with hedef
    have hyi : e.get? (j - vg.length - 1) = some y := by
      rw [List.get?_append_right (by omega)] at hy
      rw [show j - vg.length = (j - vg.length - 1) + 1 by omega] at hy
      simpa using hy
    have hdi : e.get? (j - vg.length) = some '-' := by
      rw [List.get?_append_right (by omega)] at hd
      rw [show j + 1 - vg.length = (j - vg.length) + 1 by omega] at hd
      simpa using hd
    have hzi : e.get? (j - vg.length + 1) = some z := by
      rw [List.get?_append_right (by omega)] at hz
      rw [show j + 2 - vg.length = (j - vg.length + 1) + 1 by omega] at hz
      simpa using hz
    rcases escDashes_dash_paired lv (j - vg.length) hdi with h1 | ⟨hge, h1⟩
    · rw [hzi] at h1
      exact hzne (by simpa using h1)
    · rw [show j - vg.length - 1 = j - vg.length - 1 from rfl] at h1
      rw [hyi] at h1
      exact hyne (by simpa using h1)

/-- The form-2 reference `/dev/mapper/<vg>-<esc lv>` with a dash-free
volume-group name parses back to that name. -/
theorem extract_mapper_helper (vg lv : List Char) (hne : vg ≠ [])
    (hchars : ∀ c ∈ vg, isVgChar c = true) (hnd : '-' ∉ vg)
    (hlv : lv ≠ []) (hlvh : lv.head? ≠ some '-') :
    extractVgName (devMapperLit ++ (vg ++ '-' :: escDashes lv)) = .ok vg := by
  have hpos : 1 ≤ vg.length := List.length_pos.mpr hne
  obtain ⟨c0, lv', rfl⟩ : ∃ c0 lv', lv = c0 :: lv' := by
    cases lv with
    | nil => exact absurd rfl hlv
    | cons a b => exact ⟨a, b, rfl⟩
  have hc0 : c0 ≠ '-' := by
    intro h
    exact hlvh (by simp [h])
  have hez : (escDashes (c0 :: lv')).get? 0 = some c0 := by
    rw [escDashes_head c0 lv' hc0]
    rfl
  have hk : matchAt (vg ++ '-' :: escDashes (c0 :: lv')) (vg.length - 1) = true :=
    matchAt_sep vg _ hne hchars hnd ⟨c0, hez, hc0⟩
  have hmax : ∀ j, vg.length - 1 < j →
      matchAt (vg ++ '-' :: escDashes (c0 :: lv')) j = false :=
    fun j hj => matchAt_gt_false vg (c0 :: lv') hne j hj
  have hlen : vg.length - 1 ≤ (vg ++ '-' :: escDashes (c0 :: lv')).length - 1 := by
    simp only [List.length_append, List.length_cons]
    omega
  have hgreedy : greedyK (vg ++ '-' :: escDashes (c0 :: lv')) = some (vg.length - 1) :=
    greedyKAux_eq_of _ _ hk hmax _ hlen
  have hfind := findMapperCapture_at_lit _ _ hgreedy
  have htake : (vg ++ '-' :: escDashes (c0 :: lv')).take (vg.length - 1 + 1) = vg := by
    rw [show vg.length - 1 + 1 = vg.length by omega]
    exact List.take_left vg _
  rw [htake] at hfind
  simp only [extractVgName]
  rw [if_neg (fun hcon => hcon rfl), hfind]
  simp [hne]

/-- The form-1 reference `vg/lv` parses back to `vg`. -/
theorem extract_simple_helper (vg lv : List Char) (hne : vg ≠ [])
    (hv : '/' ∉ vg) (hl : '/' ∉ lv) :
    extractVgName (vg ++ '/' :: lv) = .ok vg := by
  obtain ⟨c, vg', rfl⟩ : ∃ c vg', vg = c :: vg' := by
    cases vg with
    | nil => exact absurd rfl hne
    | cons a b => exact ⟨a, b, rfl⟩
  have hc : c ≠ '/' := fun h => hv (by simp [h])
  have hcond : ((c :: vg') ++ '/' :: lv).head? ≠ some '/' := by simp [hc]
  simp only [extractVgName]
  rw [if_pos hcond, splitOnChar_append '/' (c :: vg') lv hv, splitOnChar_no_sep '/' lv hl]
  simp

/-- The form-3 reference `/dev/vg/lv` parses back to `vg` (for a
volume-group name other than `mapper`). -/
theorem extract_dev_helper (vg lv : List Char) (hne : vg ≠ [])
    (hv : '/' ∉ vg) (hl : '/' ∉ lv)
    (hm : vg ≠ ('m' :: 'a' :: 'p' :: 'p' :: 'e' :: 'r' :: [])) :
    extractVgName (('/' :: 'd' :: 'e' :: 'v' :: '/' :: []) ++ vg ++ '/' :: lv) = .ok vg := by
  have hcv : List.count '/' vg = 0 := List.count_eq_zero.mpr hv
  have hcl : List.count '/' lv = 0 := List.count_eq_zero.mpr hl
  have hfm : findMapperCapture (('/' :: 'd' :: 'e' :: 'v' :: '/' :: []) ++ vg ++ '/' :: lv)
      = none := by
    cases hf : findMapperCapture (('/' :: 'd' :: 'e' :: 'v' :: '/' :: []) ++ vg ++ '/' :: lv) with
    | none => rfl
    | some cap =>
      exfalso
      obtain ⟨u, w, hw⟩ := findMapperCapture_some_infix _ _ hf
      have hcount :
          List.count '/' (('/' :: 'd' :: 'e' :: 'v' :: '/' :: []) ++ vg ++ '/' :: lv) = 3 := by
        simp [List.count_append, List.count_cons, hcv, hcl]
      have h3 : List.count '/' devMapperLit = 3 := by decide
      rw [hw, List.count_append, List.count_append, h3] at hcount
      have hu0 : List.count '/' u = 0 := by omega
      have hu : u = [] := by
        cases u with
        | nil => rfl
        | cons x u' =>
          exfalso
          have hx : x = '/' := by
            have hh := congrArg List.head? hw
            simpa using hh.symm
          subst hx
          simp [List.count_cons] at hu0
      subst hu
      rw [List.nil_append] at hw
      have hlit : devMapperLit ++ w =
          ('/' :: 'd' :: 'e' :: 'v' :: '/' :: []) ++
            (('m' :: 'a' :: 'p' :: 'p' :: 'e' :: 'r' :: []) ++ '/' :: w) := by
        rfl
      rw [hlit, List.append_assoc] at hw
      have hcancel : vg ++ '/' :: lv =
          ('m' :: 'a' :: 'p' :: 'p' :: 'e' :: 'r' :: []) ++ '/' :: w :=
        List.append_cancel_left hw
      exact hm (slash_split_unique vg _ _ _ hv (by decide) hcancel)
  have hpref :
      (devMapperLit.take 5).isPrefixOf
        (('/' :: 'd' :: 'e' :: 'v' :: '/' :: []) ++ vg ++ '/' :: lv) = true := by
    show (('/' :: 'd' :: 'e' :: 'v' :: '/' :: []) : List Char).isPrefixOf _ = true
    exact isPrefixOf_append_self ('/' :: 'd' :: 'e' :: 'v' :: '/' :: []) _
  have hlast :
      lastSlashIdx (('/' :: 'd' :: 'e' :: 'v' :: '/' :: []) ++ vg ++ '/' :: lv) =
        some (5 + vg.length) := by
    rw [lastSlashIdx_append_slash _ lv hl, List.length_append]
    rfl
  have hdrop :
      ((('/' :: 'd' :: 'e' :: 'v' :: '/' :: []) ++ vg ++ '/' :: lv)).drop 5 =
        vg ++ '/' :: lv :=
    List.drop_left ('/' :: 'd' :: 'e' :: 'v' :: '/' :: []) _
  have h5 : ¬ (5 + vg.length < 5) := by omega
  have hsub : 5 + vg.length - 5 = vg.length := by omega
  simp only [extractVgName]
  rw [if_neg (fun hcon => hcon rfl), hfm, if_pos hpref, hlast]
  simp [h5, hsub, hdrop, hne, List.take_left]

/-! ## C7: escape round-trip -/

/-- C7 counterexample: for `vg = x-y` and container name `z`, the
device-mapper path `/dev/mapper/x--y-z` parses to the *escaped* name
`x--y`, not back to `x-y` — the parser never un-escapes `--`. -/
theorem roundtrip_dash_counterexample :
    extractVgName (buildDevMapperPath ('x' :: '-' :: 'y' :: []) ('z' :: [])) =
      ExtractRes.ok ('x' :: '-' :: '-' :: 'y' :: []) ∧
    extractVgName (buildDevMapperPath ('x' :: '-' :: 'y' :: []) ('z' :: [])) ≠
      ExtractRes.ok ('x' :: '-' :: 'y' :: []) := by
  decide

/-- C7 (amended): the escape round-trip holds for every volume-group
name without `-` (over the regex character class) and every non-empty
container name not beginning with `-`; a `-` in the volume-group name
breaks it because the parser returns the escaped form. -/
theorem escape_roundtrip_no_dash (vg n : List Char) (h1 : vg ≠ [])
    (h2 : ∀ c ∈ vg, isVgChar c = true) (h3 : '-' ∉ vg)
    (h4 : n ≠ []) (h5 : n.head? ≠ some '-') :
    extractVgName (buildDevMapperPath vg n) = .ok vg := by
  unfold buildDevMapperPath
  rw [escDashes_no_dash vg h3, List.append_assoc]
  exact extract_mapper_helper vg n h1 h2 h3 h4 h5

/-- Witness for C7 (amended) at `vg = data`, `n = web`. -/
theorem escape_roundtrip_no_dash_witness :
    extractVgName (buildDevMapperPath ('d' :: 'a' :: 't' :: 'a' :: []) ('w' :: 'e' :: 'b' :: [])) =
      ExtractRes.ok ('d' :: 'a' :: 't' :: 'a' :: []) :=
  escape_roundtrip_no_dash _ _ (by decide) (by decide) (by decide) (by decide) (by decide)

/-! ## C8: the three reference forms -/

/-- C8 counterexample: the form-2 reference `/dev/mapper/a--b-c`
(volume group `a-b`, logical volume `c`, escaped) parses to the escaped
name `a--b`, not to the volume-group name `a-b`. -/
theorem parser_unescape_counterexample :
    extractVgName
        ('/' :: 'd' :: 'e' :: 'v' :: '/' :: 'm' :: 'a' :: 'p' :: 'p' :: 'e' :: 'r' :: '/' ::
          'a' :: '-' :: '-' :: 'b' :: '-' :: 'c' :: []) =
      ExtractRes.ok ('a' :: '-' :: '-' :: 'b' :: []) ∧
    extractVgName
        ('/' :: 'd' :: 'e' :: 'v' :: '/' :: 'm' :: 'a' :: 'p' :: 'p' :: 'e' :: 'r' :: '/' ::
          'a' :: '-' :: '-' :: 'b' :: '-' :: 'c' :: []) ≠
      ExtractRes.ok ('a' :: '-' :: 'b' :: []) := by
  decide

/-- C8 (amended): the parser recovers the volume-group name for all
three reference forms under the conditions the code actually requires —
form 1 `vg/lv` with slash-free names; form 2 `/dev/mapper/…` with a
dash-free volume-group name over the regex class, returning the
(un-changed) name; form 3 `/dev/vg/lv` with slash-free names and
`vg ≠ mapper`.  For volume-group names containing `-`, form 2 returns
the escaped name instead. -/
theorem extract_three_forms :
    (∀ vg lv : List Char, vg ≠ [] → '/' ∉ vg → '/' ∉ lv →
      extractVgName (vg ++ '/' :: lv) = ExtractRes.ok vg) ∧
    (∀ vg lv : List Char, vg ≠ [] → (∀ c ∈ vg, isVgChar c = true) → '-' ∉ vg →
      lv ≠ [] → lv.head? ≠ some '-' →
      extractVgName (devMapperLit ++ escDashes vg ++ '-' :: escDashes lv) =
        ExtractRes.ok vg) ∧
    (∀ vg lv : List Char, vg ≠ [] → '/' ∉ vg → '/' ∉ lv →
      vg ≠ ('m' :: 'a' :: 'p' :: 'p' :: 'e' :: 'r' :: []) →
      extractVgName (('/' :: 'd' :: 'e' :: 'v' :: '/' :: []) ++ vg ++ '/' :: lv) =
        ExtractRes.ok vg) := by
  refine ⟨fun vg lv h1 h2 h3 => extract_simple_helper vg lv h1 h2 h3,
    fun vg lv h1 h2 h3 h4 h5 => ?_,
    fun vg lv h1 h2 h3 h4 => extract_dev_helper vg lv h1 h2 h3 h4⟩
  rw [escDashes_no_dash vg h3, List.append_assoc]
  exact extract_mapper_helper vg lv h1 h2 h3 h4 h5

/-- Witness for C8 (amended): all three forms at `vg = pool`,
`lv = base`. -/
theorem extract_three_forms_witness :
    extractVgName (('p' :: 'o' :: 'o' :: 'l' :: []) ++ '/' :: ('b' :: 'a' :: 's' :: 'e' :: [])) =
      ExtractRes.ok ('p' :: 'o' :: 'o' :: 'l' :: []) ∧
    extractVgName (devMapperLit ++ escDashes ('p' :: 'o' :: 'o' :: 'l' :: []) ++
        '-' :: escDashes ('b' :: 'a' :: 's' :: 'e' :: [])) =
      ExtractRes.ok ('p' :: 'o' :: 'o' :: 'l' :: []) ∧
    extractVgName (('/' :: 'd' :: 'e' :: 'v' :: '/' :: []) ++ ('p' :: 'o' :: 'o' :: 'l' :: []) ++
        '/' :: ('b' :: 'a' :: 's' :: 'e' :: [])) =
      ExtractRes.ok ('p' :: 'o' :: 'o' :: 'l' :: []) :=
  ⟨extract_three_forms.1 _ _ (by decide) (by decide) (by decide),
    extract_three_forms.2.1 _ _ (by decide) (by decide) (by decide) (by decide) (by decide),
    extract_three_forms.2.2 _ _ (by decide) (by decide) (by decide) (by decide)⟩

end LxcDriver
